import Mathlib

/-!
Verification of the Firestore `Document` model
(`Firestore/core/src/firebase/firestore/model/document.h`).

The `Document` class, its `DocumentState` enumeration, its accessors and its
equality operators are translated from the header. The collaborator types
(`DocumentKey`, `SnapshotVersion`, `FieldPath`, `FieldValue`, `ObjectValue`)
are declared in other headers of the repository that are not part of this
development, so they are modelled from the specification document.
-/

set_option autoImplicit false

namespace Firestore

/-- Translated from `enum class DocumentState` in `document.h`: describes the
hasPendingWrites state of a document. Exactly three values:
local mutations applied via the mutation queue, mutations applied based on a
write acknowledgment, and no mutations applied (sent to us by Watch). -/
inductive DocumentState where
  | kLocalMutations
  | kCommittedMutations
  | kSynced
  deriving DecidableEq

/-- Modelled from the spec: `DocumentKey` is an external identity primitive,
"immutable identity, set at construction"; represented by its path segments,
with the structural equality the spec assumes. -/
structure DocumentKey where
  path : List String
  deriving DecidableEq

/-- Modelled from the spec: `SnapshotVersion` is an external primitive, "a
monotonic marker of the point in server history a value reflects"; represented
by a timestamp, with structural equality. -/
structure SnapshotVersion where
  seconds : Int
  nanoseconds : Int
  deriving DecidableEq

/-- Modelled from the spec: `FieldValue` is "a tagged union representing a
document field's value (null, boolean, number, string, binary, timestamp,
reference, geo-point, nested object, array)". The double and geo-point
variants carry IEEE floating-point values, whose arithmetic and equality are
not statable in this embedding; they are omitted, which narrows the value
domain but leaves every other variant faithful to the spec. -/
inductive FieldValue where
  | nullValue
  | booleanValue (b : Bool)
  | integerValue (i : Int)
  | timestampValue (seconds : Int) (nanoseconds : Int)
  | stringValue (s : String)
  | blobValue (bytes : List Nat)
  | referenceValue (path : List String)
  | arrayValue (elems : List FieldValue)
  | mapValue (entries : List (String × FieldValue))

/-- First entry in an ordered mapping whose key equals `name`, or absent. -/
def lookupField : List (String × FieldValue) → String → Option FieldValue
  | [], _ => none
  | (k, v) :: rest, name => if k = name then some v else lookupField rest name

/-- The keys of an ordered mapping. -/
def fieldKeys (entries : List (String × FieldValue)) : List String :=
  entries.map Prod.fst

mutual

/-- Modelled from the spec: `FieldValue` equality "is structural recursion";
"arrays and maps compare element/entry-wise; map comparison is
order-independent over entries (keys unique)". Nested map entry lists are
therefore compared key-for-key through lookups, over the keys of both sides,
never positionally. -/
def FieldValue.beqFV : FieldValue → FieldValue → Bool
  | .nullValue, .nullValue => true
  | .booleanValue a, .booleanValue b => a == b
  | .integerValue a, .integerValue b => a == b
  | .timestampValue a b, .timestampValue c d => a == c && b == d
  | .stringValue a, .stringValue b => a == b
  | .blobValue a, .blobValue b => a == b
  | .referenceValue a, .referenceValue b => a == b
  | .arrayValue a, .arrayValue b => beqFVList a b
  | .mapValue a, .mapValue b => beqFVMap (fieldKeys a ++ fieldKeys b) a b
  | _, _ => false
termination_by a _b => (sizeOf a, 0)

/-- Element-wise equality of `FieldValue` lists (array bodies). -/
def beqFVList : List FieldValue → List FieldValue → Bool
  | [], [] => true
  | a :: as, b :: bs => FieldValue.beqFV a b && beqFVList as bs
  | _, _ => false
termination_by a _b => (sizeOf a, 0)

/-- Key-for-key comparison of two map entry lists over a list of keys: the
lookups of every key must agree. Instantiated with the keys of both sides it
is the spec's order-independent map equality. -/
def beqFVMap (ks : List String) (e1 e2 : List (String × FieldValue)) : Bool :=
  match ks with
  | [] => true
  | k :: rest =>
      beqFVOpt (lookupField e1 k) (lookupField e2 k) && beqFVMap rest e1 e2
termination_by (sizeOf e1, ks.length)
decreasing_by
  · have hle : ∀ (l : List (String × FieldValue)) (s : String),
        sizeOf (lookupField l s) ≤ sizeOf l := by
      intro l s
      induction l with
      | nil => simp [lookupField]
      | cons e rest ih =>
          obtain ⟨k1, v1⟩ := e
          by_cases h : k1 = s
          · simp only [lookupField, h, if_pos]
            simp only [Option.some.sizeOf_spec, List.cons.sizeOf_spec,
              Prod.mk.sizeOf_spec]
            omega
          · simp only [lookupField, h, if_neg, not_false_iff]
            simp only [List.cons.sizeOf_spec, Prod.mk.sizeOf_spec]
            omega
    rcases Nat.lt_or_ge (sizeOf (lookupField e1 k)) (sizeOf e1) with h | h
    · exact Prod.Lex.left _ _ h
    · have heq : sizeOf (lookupField e1 k) = sizeOf e1 :=
        Nat.le_antisymm (hle e1 k) h
      rw [heq]
      exact Prod.Lex.right _ (by simp)
  · exact Prod.Lex.right _ (by simp)

/-- Comparison of two optional field values: both absent, or both present
with equal values. -/
def beqFVOpt : Option FieldValue → Option FieldValue → Bool
  | none, none => true
  | some v, some w => FieldValue.beqFV v w
  | _, _ => false
termination_by o1 _o2 => (sizeOf o1, 0)

end

/-- Modelled from the spec: `ObjectValue` is "an ordered mapping from top-level
field name to FieldValue, supporting path-based get, used as the document's
body". Represented as the ordered entry list. -/
structure ObjectValue where
  entries : List (String × FieldValue)

/-- Modelled from the spec: `FieldPath` is "an ordered, non-empty sequence of
UTF-8 segment strings" addressing a location inside nested document data. -/
structure FieldPath where
  segments : List String
  deriving DecidableEq

/-- Modelled from the spec: the descent of `ObjectValue.get` — "for each
segment except the last, require the current value to be a map variant and
descend into the entry for that segment, returning absent on type mismatch or
missing key; for the last segment, return the entry's value or absent". -/
def getFromEntries : List (String × FieldValue) → List String → Option FieldValue
  | _, [] => none
  | entries, [s] => lookupField entries s
  | entries, s :: rest =>
    match lookupField entries s with
    | some (FieldValue.mapValue inner) => getFromEntries inner rest
    | _ => none

/-- Modelled from the spec: `ObjectValue.get(path) -> optional<FieldValue>`,
"no exceptions for not found — signaled as an absent result". -/
def ObjectValue.Get (o : ObjectValue) (p : FieldPath) : Option FieldValue :=
  getFromEntries o.entries p.segments

/-- Modelled from the spec: `ObjectValue` equality — "two ObjectValues are
equal iff their mappings are equal key-for-key (insertion order irrelevant to
equality)". Checked as agreement of lookup on every key of either side, with
values compared by the spec's `FieldValue` equality. -/
def ObjectValue.beq (o1 o2 : ObjectValue) : Bool :=
  beqFVMap (fieldKeys o1.entries ++ fieldKeys o2.entries) o1.entries o2.entries

/-- Translated from `class Document : public MaybeDocument` in `document.h`:
a document with a key, version (both stored in the `MaybeDocument` base),
data and a `DocumentState`. All four fields are set at construction; the class
exposes no mutators. -/
structure Document where
  key : DocumentKey
  version : SnapshotVersion
  data : ObjectValue
  document_state : DocumentState

namespace Document

/-- Translated from `Document::field`: `return data_.Get(path);`. -/
def field (d : Document) (path : FieldPath) : Option FieldValue :=
  d.data.Get path

/-- Translated from `Document::HasLocalMutations`:
`return document_state_ == DocumentState::kLocalMutations;`. -/
def HasLocalMutations (d : Document) : Bool :=
  d.document_state == DocumentState.kLocalMutations

/-- Translated from `Document::HasCommittedMutations`:
`return document_state_ == DocumentState::kCommittedMutations;`. -/
def HasCommittedMutations (d : Document) : Bool :=
  d.document_state == DocumentState.kCommittedMutations

/-- Translated from `Document::HasPendingWrites`:
`return HasLocalMutations() || HasCommittedMutations();`. -/
def HasPendingWrites (d : Document) : Bool :=
  d.HasLocalMutations || d.HasCommittedMutations

/-- Modelled from the spec: `Document::ToString` is declared in `document.h`
but its body lives in `document.cc`, outside this development; the spec only
requires "a stable human-readable string form ... with no guarantee of
byte-stable serialization", so a pure rendering of the fields is faithful. -/
def ToString (d : Document) : String :=
  "Document(key=" ++ String.intercalate "/" d.key.path ++ ")"

end Document

/-- Translated from `inline bool operator==(const Document& lhs, const
Document& rhs)` in `document.h`: `lhs.version() == rhs.version() && lhs.key()
== rhs.key() && lhs.HasLocalMutations() == rhs.HasLocalMutations() &&
lhs.data() == rhs.data()`. -/
def docEq (lhs rhs : Document) : Bool :=
  lhs.version == rhs.version && lhs.key == rhs.key &&
    (lhs.HasLocalMutations == rhs.HasLocalMutations) &&
    ObjectValue.beq lhs.data rhs.data

/-- Translated from `inline bool operator!=(const Document& lhs, const
Document& rhs)` in `document.h`: `return !(lhs == rhs);`. -/
def docNe (lhs rhs : Document) : Bool :=
  !(docEq lhs rhs)

/-- State-passing translation of the const member functions of `Document`:
each read returns its result paired with the receiver it leaves behind. The
C++ bodies perform no write to the receiver, so the out-state is the
in-state, field for field. -/
def Document.dataRead (d : Document) : ObjectValue × Document :=
  (d.data, d)

/-- State-passing form of `Document::field`. -/
def Document.fieldRead (d : Document) (path : FieldPath) :
    Option FieldValue × Document :=
  (d.data.Get path, d)

/-- State-passing form of `Document::HasLocalMutations`. -/
def Document.hasLocalMutationsRead (d : Document) : Bool × Document :=
  (d.HasLocalMutations, d)

/-- State-passing form of `Document::HasCommittedMutations`. -/
def Document.hasCommittedMutationsRead (d : Document) : Bool × Document :=
  (d.HasCommittedMutations, d)

/-- State-passing form of `Document::HasPendingWrites`. -/
def Document.hasPendingWritesRead (d : Document) : Bool × Document :=
  (d.HasPendingWrites, d)

/-- State-passing form of `Document::ToString`. -/
def Document.toStringRead (d : Document) : String × Document :=
  (d.ToString, d)

/-- State-passing form of `operator==`: both operands are left behind. -/
def Document.eqRead (lhs rhs : Document) : Bool × Document × Document :=
  (docEq lhs rhs, lhs, rhs)

/-- A concrete document key used to instantiate the universal theorems. -/
def keyA : DocumentKey :=
  ⟨["rooms", "eros"]⟩

/-- A concrete snapshot version used to instantiate the universal theorems. -/
def versionA : SnapshotVersion :=
  ⟨1, 0⟩

/-- A concrete document body used to instantiate the universal theorems. -/
def dataA : ObjectValue :=
  ⟨[("a", FieldValue.mapValue [("b", FieldValue.integerValue 1)])]⟩

/-- A concrete document in state `kLocalMutations`. -/
def docLocalA : Document :=
  ⟨keyA, versionA, dataA, DocumentState.kLocalMutations⟩

/-- A concrete document in state `kCommittedMutations`. -/
def docCommittedA : Document :=
  ⟨keyA, versionA, dataA, DocumentState.kCommittedMutations⟩

/-- A concrete document in state `kSynced`. -/
def docSyncedA : Document :=
  ⟨keyA, versionA, dataA, DocumentState.kSynced⟩

/-- A lookup in an ordered mapping succeeds exactly on the mapping's keys. -/
theorem lookup_isSome_iff_mem (l : List (String × FieldValue)) (k : String) :
    (lookupField l k).isSome = true ↔ k ∈ fieldKeys l := by
  induction l with
  | nil => simp [lookupField, fieldKeys]
  | cons e rest ih =>
      obtain ⟨k1, v1⟩ := e
      by_cases h : k1 = k
      · simp [lookupField, fieldKeys, h]
      · simp [lookupField, fieldKeys, h, ih, Ne.symm h]

/-- A lookup result is never larger than the mapping it came from. -/
theorem lookupField_sizeOf_le (l : List (String × FieldValue)) (s : String) :
    sizeOf (lookupField l s) ≤ sizeOf l := by
  induction l with
  | nil => simp [lookupField]
  | cons e rest ih =>
      obtain ⟨k1, v1⟩ := e
      by_cases h : k1 = s
      · simp only [lookupField, h, if_pos]
        simp only [Option.some.sizeOf_spec, List.cons.sizeOf_spec,
          Prod.mk.sizeOf_spec]
        omega
      · simp only [lookupField, h, if_neg, not_false_iff]
        simp only [List.cons.sizeOf_spec, Prod.mk.sizeOf_spec]
        omega

/-- A value found by lookup is strictly smaller than the mapping. -/
theorem sizeOf_lt_of_lookup_some {l : List (String × FieldValue)} {s : String}
    {v : FieldValue} (h : lookupField l s = some v) : sizeOf v < sizeOf l := by
  have hle := lookupField_sizeOf_le l s
  rw [h] at hle
  simp only [Option.some.sizeOf_spec] at hle
  omega

/-- `beqFVMap` over a key list demands lookup agreement at each listed key. -/
theorem beqFVMap_iff_mem (ks : List String)
    (e1 e2 : List (String × FieldValue)) :
    beqFVMap ks e1 e2 = true ↔
      ∀ k ∈ ks, beqFVOpt (lookupField e1 k) (lookupField e2 k) = true := by
  induction ks with
  | nil => simp [beqFVMap]
  | cons k rest ih => simp [beqFVMap, ih]

/-- Over the keys of both sides, `beqFVMap` is exactly lookup agreement at
every key whatsoever: off-key lookups are both absent. -/
theorem beqFVMapFull_iff (e1 e2 : List (String × FieldValue)) :
    beqFVMap (fieldKeys e1 ++ fieldKeys e2) e1 e2 = true ↔
      ∀ k : String,
        beqFVOpt (lookupField e1 k) (lookupField e2 k) = true := by
  rw [beqFVMap_iff_mem]
  constructor
  · intro h k
    by_cases h1 : k ∈ fieldKeys e1
    · exact h k (List.mem_append.mpr (Or.inl h1))
    · by_cases h2 : k ∈ fieldKeys e2
      · exact h k (List.mem_append.mpr (Or.inr h2))
      · have e1n : lookupField e1 k = none := by
          rw [← Option.not_isSome_iff_eq_none]
          simpa [lookup_isSome_iff_mem] using h1
        have e2n : lookupField e2 k = none := by
          rw [← Option.not_isSome_iff_eq_none]
          simpa [lookup_isSome_iff_mem] using h2
        rw [e1n, e2n]
        simp [beqFVOpt]
  · intro h k _
    exact h k

mutual

/-- The spec's `FieldValue` equality is reflexive. -/
theorem beqFV_refl : (a : FieldValue) → FieldValue.beqFV a a = true
  | .nullValue => by simp [FieldValue.beqFV]
  | .booleanValue _ => by simp [FieldValue.beqFV]
  | .integerValue _ => by simp [FieldValue.beqFV]
  | .timestampValue _ _ => by simp [FieldValue.beqFV]
  | .stringValue _ => by simp [FieldValue.beqFV]
  | .blobValue _ => by simp [FieldValue.beqFV]
  | .referenceValue _ => by simp [FieldValue.beqFV]
  | .arrayValue l => by simp [FieldValue.beqFV, beqFVList_refl l]
  | .mapValue e => by
      simp [FieldValue.beqFV, beqFVMap_refl (fieldKeys e ++ fieldKeys e) e]
termination_by a => (sizeOf a, 0)

/-- Element-wise array equality is reflexive. -/
theorem beqFVList_refl : (l : List FieldValue) → beqFVList l l = true
  | [] => by simp [beqFVList]
  | x :: xs => by simp [beqFVList, beqFV_refl x, beqFVList_refl xs]
termination_by l => (sizeOf l, 0)

/-- Key-for-key map comparison of a mapping with itself holds over any key
list. -/
theorem beqFVMap_refl : (ks : List String) →
    (e : List (String × FieldValue)) → beqFVMap ks e e = true
  | [], e => by simp [beqFVMap]
  | k :: rest, e => by
      simp [beqFVMap, beqFVOpt_refl (lookupField e k), beqFVMap_refl rest e]
termination_by ks e => (sizeOf e, ks.length)
decreasing_by
  · rcases Nat.lt_or_ge (sizeOf (lookupField e k)) (sizeOf e) with h | h
    · exact Prod.Lex.left _ _ h
    · have heq : sizeOf (lookupField e k) = sizeOf e :=
        Nat.le_antisymm (lookupField_sizeOf_le e k) h
      rw [heq]
      exact Prod.Lex.right _ (by simp)
  · exact Prod.Lex.right _ (by simp)

/-- Optional-value comparison is reflexive. -/
theorem beqFVOpt_refl : (o : Option FieldValue) → beqFVOpt o o = true
  | none => by simp [beqFVOpt]
  | some v => by simp [beqFVOpt, beqFV_refl v]
termination_by o => (sizeOf o, 0)

end

mutual

/-- The spec's `FieldValue` equality is symmetric. -/
theorem beqFV_symm : (a : FieldValue) → ∀ b : FieldValue,
    FieldValue.beqFV a b = true → FieldValue.beqFV b a = true
  | .nullValue => by
      intro b h
      cases b <;> simp [FieldValue.beqFV] at h
      simp [FieldValue.beqFV]
  | .booleanValue x => by
      intro b h
      cases b <;> simp [FieldValue.beqFV] at h ⊢
      exact h.symm
  | .integerValue x => by
      intro b h
      cases b <;> simp [FieldValue.beqFV] at h ⊢
      exact h.symm
  | .timestampValue x y => by
      intro b h
      cases b <;> simp [FieldValue.beqFV] at h ⊢
      exact ⟨h.1.symm, h.2.symm⟩
  | .stringValue x => by
      intro b h
      cases b <;> simp [FieldValue.beqFV] at h ⊢
      exact h.symm
  | .blobValue x => by
      intro b h
      cases b <;> simp [FieldValue.beqFV] at h ⊢
      exact h.symm
  | .referenceValue x => by
      intro b h
      cases b <;> simp [FieldValue.beqFV] at h ⊢
      exact h.symm
  | .arrayValue l1 => by
      intro b h
      cases b <;> simp [FieldValue.beqFV] at h ⊢
      rename_i l2
      exact beqFVList_symm l1 l2 h
  | .mapValue e1 => by
      intro b h
      cases b <;> simp [FieldValue.beqFV] at h ⊢
      rename_i e2
      exact beqFVMapFull_symm e1 e2 h
termination_by a => (sizeOf a, 0)

/-- Element-wise array equality is symmetric. -/
theorem beqFVList_symm : (l1 : List FieldValue) → ∀ l2 : List FieldValue,
    beqFVList l1 l2 = true → beqFVList l2 l1 = true
  | [] => by
      intro l2 h
      cases l2 with
      | nil => exact h
      | cons y ys => simp [beqFVList] at h
  | x :: xs => by
      intro l2 h
      cases l2 with
      | nil => simp [beqFVList] at h
      | cons y ys =>
          simp [beqFVList] at h ⊢
          exact ⟨beqFV_symm x y h.1, beqFVList_symm xs ys h.2⟩
termination_by l1 => (sizeOf l1, 0)

/-- Key-for-key map comparison over the keys of both sides is symmetric. -/
theorem beqFVMapFull_symm : (e1 e2 : List (String × FieldValue)) →
    beqFVMap (fieldKeys e1 ++ fieldKeys e2) e1 e2 = true →
    beqFVMap (fieldKeys e2 ++ fieldKeys e1) e2 e1 = true
  | e1, e2 => by
      intro h
      rw [beqFVMapFull_iff] at h ⊢
      intro k
      have hk := h k
      cases hv : lookupField e1 k with
      | none =>
          rw [hv] at hk
          cases hw : lookupField e2 k with
          | none => simp [beqFVOpt]
          | some w => rw [hw] at hk; simp [beqFVOpt] at hk
      | some v =>
          rw [hv] at hk
          cases hw : lookupField e2 k with
          | none => rw [hw] at hk; simp [beqFVOpt] at hk
          | some w =>
              rw [hw] at hk
              simp [beqFVOpt] at hk ⊢
              exact beqFV_symm v w hk
termination_by e1 _e2 => (sizeOf e1, 0)
decreasing_by
  exact Prod.Lex.left _ _ (sizeOf_lt_of_lookup_some hv)

end

mutual

/-- The spec's `FieldValue` equality is transitive. -/
theorem beqFV_trans : (a : FieldValue) → ∀ b c : FieldValue,
    FieldValue.beqFV a b = true → FieldValue.beqFV b c = true →
    FieldValue.beqFV a c = true
  | .nullValue => by
      intro b c h12 h23
      cases b <;> simp [FieldValue.beqFV] at h12
      exact h23
  | .booleanValue x => by
      intro b c h12 h23
      cases b <;> simp [FieldValue.beqFV] at h12
      subst h12
      exact h23
  | .integerValue x => by
      intro b c h12 h23
      cases b <;> simp [FieldValue.beqFV] at h12
      subst h12
      exact h23
  | .timestampValue x y => by
      intro b c h12 h23
      cases b <;> simp [FieldValue.beqFV] at h12
      obtain ⟨ha, hb⟩ := h12
      subst ha
      subst hb
      exact h23
  | .stringValue x => by
      intro b c h12 h23
      cases b <;> simp [FieldValue.beqFV] at h12
      subst h12
      exact h23
  | .blobValue x => by
      intro b c h12 h23
      cases b <;> simp [FieldValue.beqFV] at h12
      subst h12
      exact h23
  | .referenceValue x => by
      intro b c h12 h23
      cases b <;> simp [FieldValue.beqFV] at h12
      subst h12
      exact h23
  | .arrayValue l1 => by
      intro b c h12 h23
      cases b <;> simp [FieldValue.beqFV] at h12
      rename_i l2
      cases c <;> simp [FieldValue.beqFV] at h23 ⊢
      rename_i l3
      exact beqFVList_trans l1 l2 l3 h12 h23
  | .mapValue e1 => by
      intro b c h12 h23
      cases b <;> simp [FieldValue.beqFV] at h12
      rename_i e2
      cases c <;> simp [FieldValue.beqFV] at h23 ⊢
      rename_i e3
      exact beqFVMapFull_trans e1 e2 e3 h12 h23
termination_by a => (sizeOf a, 0)

/-- Element-wise array equality is transitive. -/
theorem beqFVList_trans : (l1 : List FieldValue) → ∀ l2 l3 : List FieldValue,
    beqFVList l1 l2 = true → beqFVList l2 l3 = true →
    beqFVList l1 l3 = true
  | [] => by
      intro l2 l3 h12 h23
      cases l2 with
      | nil => exact h23
      | cons y ys => simp [beqFVList] at h12
  | x :: xs => by
      intro l2 l3 h12 h23
      cases l2 with
      | nil => simp [beqFVList] at h12
      | cons y ys =>
          cases l3 with
          | nil => simp [beqFVList] at h23
          | cons z zs =>
              simp [beqFVList] at h12 h23 ⊢
              exact ⟨beqFV_trans x y z h12.1 h23.1,
                beqFVList_trans xs ys zs h12.2 h23.2⟩
termination_by l1 => (sizeOf l1, 0)

/-- Key-for-key map comparison over the keys of both sides is transitive. -/
theorem beqFVMapFull_trans : (e1 e2 e3 : List (String × FieldValue)) →
    beqFVMap (fieldKeys e1 ++ fieldKeys e2) e1 e2 = true →
    beqFVMap (fieldKeys e2 ++ fieldKeys e3) e2 e3 = true →
    beqFVMap (fieldKeys e1 ++ fieldKeys e3) e1 e3 = true
  | e1, e2, e3 => by
      intro h12 h23
      rw [beqFVMapFull_iff] at h12 h23 ⊢
      intro k
      have p12 := h12 k
      have p23 := h23 k
      cases hv : lookupField e1 k with
      | none =>
          rw [hv] at p12
          cases hw : lookupField e2 k with
          | none =>
              rw [hw] at p23
              cases hu : lookupField e3 k with
              | none => simp [beqFVOpt]
              | some u => rw [hu] at p23; simp [beqFVOpt] at p23
          | some w => rw [hw] at p12; simp [beqFVOpt] at p12
      | some v =>
          rw [hv] at p12
          cases hw : lookupField e2 k with
          | none => rw [hw] at p12; simp [beqFVOpt] at p12
          | some w =>
              rw [hw] at p12 p23
              cases hu : lookupField e3 k with
              | none => rw [hu] at p23; simp [beqFVOpt] at p23
              | some u =>
                  rw [hu] at p23
                  simp [beqFVOpt] at p12 p23 ⊢
                  exact beqFV_trans v w u p12 p23
termination_by e1 _e2 _e3 => (sizeOf e1, 0)
decreasing_by
  exact Prod.Lex.left _ _ (sizeOf_lt_of_lookup_some hv)

end

/-- `ObjectValue.beq` holds exactly when the two mappings agree, value-wise,
on the lookup result of every key. -/
theorem ObjectValue.beq_iff_lookup (o1 o2 : ObjectValue) :
    ObjectValue.beq o1 o2 = true ↔
      ∀ k : String,
        beqFVOpt (lookupField o1.entries k) (lookupField o2.entries k)
          = true :=
  beqFVMapFull_iff o1.entries o2.entries

/-- `ObjectValue.beq` is reflexive. -/
theorem ObjectValue.beq_refl (o : ObjectValue) : ObjectValue.beq o o = true :=
  beqFVMap_refl _ o.entries

/-- `ObjectValue.beq` is symmetric. -/
theorem ObjectValue.beq_symm {o1 o2 : ObjectValue}
    (h : ObjectValue.beq o1 o2 = true) : ObjectValue.beq o2 o1 = true :=
  beqFVMapFull_symm o1.entries o2.entries h

/-- `ObjectValue.beq` is transitive. -/
theorem ObjectValue.beq_trans {o1 o2 o3 : ObjectValue}
    (h12 : ObjectValue.beq o1 o2 = true)
    (h23 : ObjectValue.beq o2 o3 = true) : ObjectValue.beq o1 o3 = true :=
  beqFVMapFull_trans o1.entries o2.entries o3.entries h12 h23

/-- Characterisation of `operator==`: it holds exactly when version, key,
`HasLocalMutations` and data agree. -/
theorem docEq_iff (d1 d2 : Document) :
    docEq d1 d2 = true ↔
      d1.version = d2.version ∧ d1.key = d2.key ∧
        d1.HasLocalMutations = d2.HasLocalMutations ∧
        ObjectValue.beq d1.data d2.data = true := by
  simp [docEq, and_assoc]

/-- Claim C1: for all `Document` values d1 and d2, `operator==` returns true
iff the version, key, `HasLocalMutations()` and data of the two documents are
equal; no other field influences the outcome. -/
theorem claim1_document_equality_exactly_components (d1 d2 : Document) :
    docEq d1 d2 = true ↔
      (d1.version = d2.version ∧ d1.key = d2.key ∧
        d1.HasLocalMutations = d2.HasLocalMutations ∧
        ObjectValue.beq d1.data d2.data = true) :=
  docEq_iff d1 d2

/-- Claim C2: for every document built with any of the three states s,
`HasPendingWrites()` is true exactly when s is not `kSynced`, equivalently
exactly when s is `kLocalMutations` or `kCommittedMutations`. -/
theorem claim2_hasPendingWrites_iff_unsynced
    (data : ObjectValue) (key : DocumentKey) (version : SnapshotVersion)
    (s : DocumentState) :
    (Document.HasPendingWrites ⟨key, version, data, s⟩
        = !(s == DocumentState.kSynced)) ∧
      (Document.HasPendingWrites ⟨key, version, data, s⟩ = true ↔
        (s = DocumentState.kLocalMutations ∨
          s = DocumentState.kCommittedMutations)) := by
  cases s <;>
    simp [Document.HasPendingWrites, Document.HasLocalMutations,
      Document.HasCommittedMutations]

/-- Claim C3: two documents with equal data, key and version whose states are
`kCommittedMutations` and `kSynced` compare equal under `operator==` although
their `HasPendingWrites()` values differ. -/
theorem claim3_equality_ignores_committed_vs_synced
    (d1 d2 : Document)
    (hk : d1.key = d2.key) (hv : d1.version = d2.version)
    (hd : ObjectValue.beq d1.data d2.data = true)
    (h1 : d1.document_state = DocumentState.kCommittedMutations)
    (h2 : d2.document_state = DocumentState.kSynced) :
    docEq d1 d2 = true ∧ d1.HasPendingWrites = true ∧
      d2.HasPendingWrites = false := by
  refine ⟨(docEq_iff d1 d2).mpr ⟨hv, hk, ?_, hd⟩, ?_, ?_⟩
  · simp [Document.HasLocalMutations, h1, h2]
  · simp [Document.HasPendingWrites, Document.HasLocalMutations,
      Document.HasCommittedMutations, h1]
  · simp [Document.HasPendingWrites, Document.HasLocalMutations,
      Document.HasCommittedMutations, h2]

/-- Witness for claim C3 at concrete documents. -/
theorem claim3_witness :
    docEq docCommittedA docSyncedA = true ∧
      Document.HasPendingWrites docCommittedA = true ∧
      Document.HasPendingWrites docSyncedA = false :=
  claim3_equality_ignores_committed_vs_synced docCommittedA docSyncedA rfl rfl
    (ObjectValue.beq_refl dataA) rfl rfl

/-- Claim C4: `HasLocalMutations()` and `HasCommittedMutations()` are never
simultaneously true, for every document. -/
theorem claim4_local_and_committed_mutually_exclusive (d : Document) :
    (d.HasLocalMutations && d.HasCommittedMutations) = false := by
  cases h : d.document_state <;>
    simp [Document.HasLocalMutations, Document.HasCommittedMutations, h]

/-- Claim C5: `operator==` on documents is reflexive, symmetric and
transitive. -/
theorem claim5_docEq_equivalence :
    (∀ d : Document, docEq d d = true) ∧
      (∀ d1 d2 : Document, docEq d1 d2 = true → docEq d2 d1 = true) ∧
      (∀ d1 d2 d3 : Document,
        docEq d1 d2 = true → docEq d2 d3 = true → docEq d1 d3 = true) := by
  refine ⟨fun d => (docEq_iff d d).mpr
    ⟨rfl, rfl, rfl, ObjectValue.beq_refl d.data⟩, ?_, ?_⟩
  · intro d1 d2 h
    obtain ⟨hv, hk, hl, hd⟩ := (docEq_iff d1 d2).mp h
    exact (docEq_iff d2 d1).mpr
      ⟨hv.symm, hk.symm, hl.symm, ObjectValue.beq_symm hd⟩
  · intro d1 d2 d3 h12 h23
    obtain ⟨hv12, hk12, hl12, hd12⟩ := (docEq_iff d1 d2).mp h12
    obtain ⟨hv23, hk23, hl23, hd23⟩ := (docEq_iff d2 d3).mp h23
    exact (docEq_iff d1 d3).mpr
      ⟨hv12.trans hv23, hk12.trans hk23, hl12.trans hl23,
        ObjectValue.beq_trans hd12 hd23⟩

/-- Witness for claim C5: transitivity applied at concrete documents. -/
theorem claim5_witness : docEq docLocalA docLocalA = true :=
  claim5_docEq_equivalence.2.2 docLocalA docLocalA docLocalA
    ((docEq_iff docLocalA docLocalA).mpr
      ⟨rfl, rfl, rfl, ObjectValue.beq_refl dataA⟩)
    ((docEq_iff docLocalA docLocalA).mpr
      ⟨rfl, rfl, rfl, ObjectValue.beq_refl dataA⟩)

/-- Claim C6: a document in state `kLocalMutations` is not `operator==`-equal
to one with the same data, key and version in state `kCommittedMutations`,
because `HasLocalMutations()` is true for the former and false for the
latter. -/
theorem claim6_local_vs_committed_unequal
    (d1 d2 : Document)
    (_hk : d1.key = d2.key) (_hv : d1.version = d2.version)
    (_hd : ObjectValue.beq d1.data d2.data = true)
    (h1 : d1.document_state = DocumentState.kLocalMutations)
    (h2 : d2.document_state = DocumentState.kCommittedMutations) :
    docEq d1 d2 = false ∧ d1.HasLocalMutations = true ∧
      d2.HasLocalMutations = false := by
  have hl1 : d1.HasLocalMutations = true := by
    simp [Document.HasLocalMutations, h1]
  have hl2 : d2.HasLocalMutations = false := by
    simp [Document.HasLocalMutations, h2]
  exact ⟨by simp [docEq, hl1, hl2], hl1, hl2⟩

/-- Witness for claim C6 at concrete documents. -/
theorem claim6_witness :
    docEq docLocalA docCommittedA = false ∧
      Document.HasLocalMutations docLocalA = true ∧
      Document.HasLocalMutations docCommittedA = false :=
  claim6_local_vs_committed_unequal docLocalA docCommittedA rfl rfl
    (ObjectValue.beq_refl dataA) rfl rfl

/-- Claim C7: `Document::field` returns exactly `data().Get(path)` — the
spec's segment-by-segment descent — and a missing field is an absent optional
result, not an error. -/
theorem claim7_field_delegates_to_get (d : Document) (p : FieldPath) :
    d.field p = d.data.Get p ∧
      d.field p = getFromEntries d.data.entries p.segments :=
  ⟨rfl, rfl⟩

/-- Claim C8: `DocumentState` has exactly the three enumerated values, and the
state stored in any document is one of them. -/
theorem claim8_document_state_exhaustive :
    (∀ s : DocumentState,
        s = DocumentState.kLocalMutations ∨
          s = DocumentState.kCommittedMutations ∨ s = DocumentState.kSynced) ∧
      (∀ d : Document,
        d.document_state = DocumentState.kLocalMutations ∨
          d.document_state = DocumentState.kCommittedMutations ∨
          d.document_state = DocumentState.kSynced) := by
  have hall : ∀ s : DocumentState,
      s = DocumentState.kLocalMutations ∨
        s = DocumentState.kCommittedMutations ∨ s = DocumentState.kSynced :=
    fun s => by cases s <;> simp
  exact ⟨hall, fun d => hall d.document_state⟩

/-- Claim C9: every read operation of `Document`, in its state-passing form,
leaves the receiver unchanged — the document after the call is the document
before it, field for field. -/
theorem claim9_reads_leave_document_unchanged
    (d other : Document) (p : FieldPath) :
    (d.dataRead).2 = d ∧ (d.fieldRead p).2 = d ∧
      (d.hasLocalMutationsRead).2 = d ∧ (d.hasCommittedMutationsRead).2 = d ∧
      (d.hasPendingWritesRead).2 = d ∧ (d.toStringRead).2 = d ∧
      (Document.eqRead d other).2.1 = d ∧
      (Document.eqRead d other).2.2 = other ∧
      (d.fieldRead p).2.key = d.key ∧ (d.fieldRead p).2.version = d.version ∧
      (d.fieldRead p).2.data = d.data ∧
      (d.fieldRead p).2.document_state = d.document_state :=
  ⟨rfl, rfl, rfl, rfl, rfl, rfl, rfl, rfl, rfl, rfl, rfl, rfl⟩

/-- Claim C10: `operator!=` returns exactly the negation of `operator==`; on
every pair of documents exactly one of the two operators returns true. -/
theorem claim10_docNe_is_negation_of_docEq (d1 d2 : Document) :
    docNe d1 d2 = !(docEq d1 d2) ∧
      ((docNe d1 d2 = true ∧ docEq d1 d2 = false) ∨
        (docNe d1 d2 = false ∧ docEq d1 d2 = true)) := by
  refine ⟨rfl, ?_⟩
  cases h : docEq d1 d2
  · exact Or.inl ⟨by simp [docNe, h], rfl⟩
  · exact Or.inr ⟨by simp [docNe, h], rfl⟩

end Firestore
